import Mathlib

/-!
Verification of the connection/session core of the cerbottana chat client.

The Python sources under verification are `connection.py` and
`models/room.py`.  Python `dict`s (which preserve insertion order and hold
at most one binding per key) are embedded as association lists, Python
strings as `List Char`, and clock readings (`time.time()`) as rationals.
Helpers that the repository snapshot does not ship (`utils.to_room_id`,
`User.has_role`) are modelled from the specification text and are marked
as such in their doc comments.
-/

namespace Cerbottana

/-! ### Association lists embedding Python dicts -/

/-- Lookup in an association list, first binding wins (Python `d[k]` /
`k in d`). -/
def lookupA {α β : Type} [DecidableEq α] : List (α × β) → α → Option β
  | [], _ => none
  | (k, v) :: rest, a => if k = a then some v else lookupA rest a

/-- Update/insert in an association list: replaces the binding in place if
the key is present, otherwise appends at the end.  This matches Python
`d[k] = v` (insertion order preserved, new keys go last). -/
def updateA {α β : Type} [DecidableEq α] : List (α × β) → α → β → List (α × β)
  | [], a, b => [(a, b)]
  | (k, v) :: rest, a, b =>
      if k = a then (a, b) :: rest else (k, v) :: updateA rest a b

/-- Delete a key from an association list (Python `d.pop(k)`). -/
def popA {α β : Type} [DecidableEq α] : List (α × β) → α → List (α × β)
  | [], _ => []
  | (k, v) :: rest, a => if k = a then rest else (k, v) :: popA rest a

/-- The keys of an association list are pairwise distinct (the Python dict
representation invariant). -/
def keysNodup {α β : Type} (l : List (α × β)) : Prop :=
  (l.map Prod.fst).Nodup

@[simp] theorem lookupA_nil {α β : Type} [DecidableEq α] (a : α) :
    lookupA ([] : List (α × β)) a = none := rfl

@[simp] theorem lookupA_cons {α β : Type} [DecidableEq α]
    (k : α) (v : β) (rest : List (α × β)) (a : α) :
    lookupA ((k, v) :: rest) a = if k = a then some v else lookupA rest a := rfl

theorem lookupA_updateA_self {α β : Type} [DecidableEq α]
    (l : List (α × β)) (a : α) (b : β) :
    lookupA (updateA l a b) a = some b := by
  induction l with
  | nil => simp [updateA, lookupA]
  | cons p rest ih =>
      obtain ⟨k, v⟩ := p
      by_cases h : k = a
      · simp [updateA, lookupA, h]
      · simp [updateA, lookupA, h, ih]

theorem lookupA_updateA_ne {α β : Type} [DecidableEq α]
    (l : List (α × β)) (a c : α) (b : β) (h : a ≠ c) :
    lookupA (updateA l a b) c = lookupA l c := by
  induction l with
  | nil => simp [updateA, lookupA, h]
  | cons p rest ih =>
      obtain ⟨k, v⟩ := p
      by_cases hk : k = a
      · subst hk
        simp [updateA, lookupA, h]
      · simp [updateA, lookupA, hk, ih]

theorem mem_updateA {α β : Type} [DecidableEq α]
    {l : List (α × β)} {a : α} {b : β} {p : α × β}
    (h : p ∈ updateA l a b) : p = (a, b) ∨ p ∈ l := by
  induction l with
  | nil =>
      simp [updateA] at h
      exact Or.inl h
  | cons q rest ih =>
      obtain ⟨k, v⟩ := q
      by_cases hk : k = a
      · simp [updateA, hk] at h
        rcases h with h | h
        · exact Or.inl h
        · exact Or.inr (List.mem_cons_of_mem _ h)
      · simp [updateA, hk] at h
        rcases h with h | h
        · exact Or.inr (by simp [h])
        · rcases ih h with h2 | h2
          · exact Or.inl h2
          · exact Or.inr (List.mem_cons_of_mem _ h2)

theorem mem_popA {α β : Type} [DecidableEq α]
    {l : List (α × β)} {a : α} {p : α × β}
    (h : p ∈ popA l a) : p ∈ l := by
  induction l with
  | nil => simp [popA] at h
  | cons q rest ih =>
      obtain ⟨k, v⟩ := q
      by_cases hk : k = a
      · simp [popA, hk] at h
        exact List.mem_cons_of_mem _ h
      · simp [popA, hk] at h
        rcases h with h | h
        · simp [h]
        · exact List.mem_cons_of_mem _ (ih h)

theorem keys_updateA_subset {α β : Type} [DecidableEq α]
    {l : List (α × β)} {a : α} {b : β} {k : α}
    (h : k ∈ (updateA l a b).map Prod.fst) :
    k = a ∨ k ∈ l.map Prod.fst := by
  simp only [List.mem_map] at h
  obtain ⟨p, hp, hk⟩ := h
  rcases mem_updateA hp with h2 | h2
  · subst h2
    exact Or.inl hk.symm
  · exact Or.inr (by exact List.mem_map.mpr ⟨p, h2, hk⟩)

theorem keysNodup_updateA {α β : Type} [DecidableEq α]
    {l : List (α × β)} (h : keysNodup l) (a : α) (b : β) :
    keysNodup (updateA l a b) := by
  induction l with
  | nil =>
      show (([(a, b)] : List (α × β)).map Prod.fst).Nodup
      simp
  | cons q rest ih =>
      obtain ⟨k, v⟩ := q
      rw [keysNodup, List.map_cons, List.nodup_cons] at h
      obtain ⟨hk, hrest⟩ := h
      by_cases hka : k = a
      · subst hka
        show ((updateA ((k, v) :: rest) k b).map Prod.fst).Nodup
        rw [updateA, if_pos rfl, List.map_cons, List.nodup_cons]
        exact ⟨hk, hrest⟩
      · have ihr := ih hrest
        show ((updateA ((k, v) :: rest) a b).map Prod.fst).Nodup
        rw [updateA, if_neg hka, List.map_cons, List.nodup_cons]
        refine ⟨?_, ihr⟩
        intro hmem
        rcases keys_updateA_subset hmem with h2 | h2
        · exact hka h2
        · exact hk h2

/-! ### Strings and the line protocol codec (`connection.py`) -/

/-- Python `str.split(sep)` for a one-character separator: splits on every
occurrence, keeping empty pieces (`"".split(c) == [""]`). -/
def splitOnChar (c : Char) : List Char → List (List Char)
  | [] => [[]]
  | x :: xs =>
      if x = c then [] :: splitOnChar c xs
      else
        match splitOnChar c xs with
        | [] => [[x]]
        | y :: ys => (x :: y) :: ys

/-- Modelled from the spec: `utils.to_room_id` (the repository snapshot does
not ship `utils.py`).  Per the spec, room-identifier normalization is the
"lowercase, alphanumeric-only projection of the display name". -/
def to_room_id (s : List Char) : List Char :=
  (s.map Char.toLower).filter Char.isAlphanum

/-- The command strings used by `parse_message` (`'init'`, `'tournament'`)
and the constants of the outbound paths, written as character lists. -/
def initCmd : List Char := ['i', 'n', 'i', 't']

def tournamentCmd : List Char := ['t', 'o', 'u', 'r', 'n', 'a', 'm', 'e', 'n', 't']

def joinCmd : List Char := ['j', 'o', 'i', 'n']

/-- `'/modchat +'`, the elevate-moderation command sent by `try_modchat`. -/
def modchatPlus : List Char := ['/', 'm', 'o', 'd', 'c', 'h', 'a', 't', ' ', '+']

/-- A line is a structured record iff it is non-empty and starts with the
field separator: `parse_message` skips a line when
`not msg or msg[0] != '|'`. -/
def structuredLine : List Char → Bool
  | [] => false
  | c :: _ => c = '|'

/-- One handler invocation recorded by the dispatch loop: the command name
that selected the handler, the handler (identified by a numeral, since the
embedding does not run Python callables), and the arguments
`(roomid, *parts[2:])` it is called with. -/
structure DispatchEvent where
  cmd : List Char
  hid : Nat
  roomid : List Char
  args : List (List Char)
deriving DecidableEq

/-- The dispatch loop of `Connection.parse_message` (lines 85-111 of
`connection.py`), as the list of handler invocations it performs, in
order.  `tbl` is the `self.handlers` dict, `rid` the roomid of the frame,
the `Bool` argument the `init` flag.

Per structured line: `parts = msg.split('|')`, `command = parts[1]`,
`init` is set on an `'init'` command, the frame is abandoned (`return`)
when `init and command in ['tournament']`, and the handler for `command`
is awaited if registered.  The modchat-regex side channel (lines 87-95)
and the `try_modchat` call (lines 82-83) write only external Room state
and contain no `continue`/`return`, so they do not alter the dispatch
trace modelled here. -/
def parseLines (tbl : List (List Char × Nat)) (rid : List Char) :
    Bool → List (List Char) → List DispatchEvent
  | _, [] => []
  | init, msg :: rest =>
      if structuredLine msg then
        let parts := splitOnChar '|' msg
        let command := parts.getD 1 []
        let init2 := init || decide (command = initCmd)
        if init2 && decide (command = tournamentCmd) then []
        else
          match lookupA tbl command with
          | some hid =>
              DispatchEvent.mk command hid rid (parts.drop 2) ::
                parseLines tbl rid init2 rest
          | none => parseLines tbl rid init2 rest
      else parseLines tbl rid init rest

/-- The room header of a frame: `parse_message` sets
`room = message.split('\n')[0]` when `message[0] == '>'`, else `room = ''`. -/
def roomHeaderOf (message : List Char) : List Char :=
  if message.headD ' ' = '>' then (splitOnChar '\n' message).headD [] else []

/-- `roomid = utils.to_room_id(room)` in `parse_message`. -/
def roomidOf (message : List Char) : List Char :=
  to_room_id (roomHeaderOf message)

/-- `Connection.parse_message` as the ordered list of handler invocations
for one inbound frame: an empty frame returns immediately
(`if not message: return`); otherwise the frame is split on newlines and
processed by the dispatch loop with `init = False`. -/
def parse_message (tbl : List (List Char × Nat)) (message : List Char) :
    List DispatchEvent :=
  if message = [] then []
  else parseLines tbl (roomidOf message) false (splitOnChar '\n' message)

/-- The command name of a structured line: `parts[1]` of
`msg.split('|')`. -/
def cmdOf (msg : List Char) : List Char :=
  (splitOnChar '|' msg).getD 1 []

/-- The per-line dispatch function used to specify `parseLines`: the single
handler invocation (if any) that a given physical line produces, ignoring
the init/tournament truncation. -/
def lineEvent (tbl : List (List Char × Nat)) (rid : List Char)
    (msg : List Char) : Option DispatchEvent :=
  if structuredLine msg then
    let parts := splitOnChar '|' msg
    let command := parts.getD 1 []
    match lookupA tbl command with
    | some hid => some (DispatchEvent.mk command hid rid (parts.drop 2))
    | none => none
  else none

/-- Building the `self.handlers` dict of `Connection.__init__` from a list
of `(command name, handler)` registrations: a Python dict assignment, so a
later registration under the same name overwrites the earlier one. -/
def dictInsertAll (regs : List (List Char × Nat)) : List (List Char × Nat) :=
  regs.foldl (fun m p => updateA m p.1 p.2) []

/-! ### Outbound send path (`Connection.send`, connection.py lines 155-161) -/

/-- The rate-limiter state: `self.lastmessage`, initially `0`. -/
structure SendState where
  lastmessage : ℚ
deriving DecidableEq

/-- One `Connection.send` call, started at clock reading `callTime`
(`now = time()`): if `now - self.lastmessage < 0.1` the call sleeps `0.1`,
so the write to the transport happens at `callTime + 0.1`, else at
`callTime`; in either case `self.lastmessage` is then set to `now` (the
call time, not the transmission time).  Returns the new state and the
transmission time. -/
def sendStep (s : SendState) (callTime : ℚ) : SendState × ℚ :=
  if callTime - s.lastmessage < 1 / 10 then
    (SendState.mk callTime, callTime + 1 / 10)
  else
    (SendState.mk callTime, callTime)

/-! ### Room moderation policy (`Room.try_modchat`, room.py lines 143-156) -/

/-- Python truthiness of an optional float (`if self.no_mods_online:`):
`None` and `0.0` are falsy. -/
def pyTruthy : Option ℚ → Bool
  | none => false
  | some t => decide (t ≠ 0)

/-- The fields of a `Room` read and written by `try_modchat`. -/
structure ModRoom where
  modchat : Bool
  no_mods_online : Option ℚ
  last_modchat_command : ℚ
deriving DecidableEq

/-- `Room.try_modchat`.  `minutes` is `hour * 60 + minute` of
`datetime.now(pytz.timezone('Europe/Rome'))` and `now` the value of the
`time()` reads of the call (clock readings are call inputs in this
embedding).  Guard: `not self.modchat and self.no_mods_online`; fire
condition: `30 <= minutes < 8 * 60`, `self.no_mods_online + (7 * 60) <
time()` and `self.last_modchat_command + 15 < time()`; on fire it sets
`self.last_modchat_command = time()` and sends `'/modchat +'`. -/
def try_modchat (r : ModRoom) (minutes : ℕ) (now : ℚ) :
    ModRoom × Option (List Char) :=
  if !r.modchat && pyTruthy r.no_mods_online then
    let gap := r.no_mods_online.getD 0
    if 30 ≤ minutes ∧ minutes < 8 * 60 ∧ gap + 7 * 60 < now ∧
        r.last_modchat_command + 15 < now then
      (ModRoom.mk r.modchat r.no_mods_online now, some modchatPlus)
    else (r, none)
  else (r, none)

/-! ### Room membership (`Room.add_user` / `Room.remove_user` /
`Room._check_no_mods_online`, room.py lines 91-141) -/

/-- The `User` attributes the membership code reads: the normalized user
id (`user.userid`) and the idle flag (`user.idle`).  The repository
snapshot does not ship `models/user.py`; these two fields are the ones
named by the spec. -/
structure RUser where
  uid : Nat
  idle : Bool
deriving DecidableEq

/-- Modelled from the spec: the rank strings that grant "at least the
designated moderator capability" (driver and above, PS ranks
`% @ * # & ~`).  `models/user.py` (`User.has_role`) is not in the
snapshot; per the spec the capability is a function of the member's rank
string in the room. -/
def isDriverRank (rk : List Char) : Bool :=
  decide (rk ∈ [['%'], ['@'], ['*'], ['#'], ['&'], ['~']])

/-- Modelled from the spec: `user.has_role("driver", room,
ignore_grole=True)` — the user's rank string stored in the room's member
mapping grants at least driver. -/
def hasRoleDriver (users : List (RUser × List Char)) (u : RUser) : Bool :=
  match lookupA users u with
  | some rk => isDriverRank rk
  | none => false

/-- The room state touched by membership tracking, plus the Session-global
user registry `conn.users` (a dict keyed by `user.userid`). -/
structure RoomMembers where
  users : List (RUser × List Char)
  no_mods_online : Option ℚ
  connUsers : List (Nat × RUser)
deriving DecidableEq

/-- The scan loop of `Room._check_no_mods_online`: iterate the member dict
in order; skip idle users; on the first non-idle member with the driver
capability set the timestamp to `None` and return; a non-idle member
without it sets the timestamp to `time()` (and the loop continues). -/
def checkLoop (l : List (RUser × List Char)) (gap : Option ℚ) (now : ℚ) :
    Option ℚ :=
  match l with
  | [] => gap
  | (u, rk) :: rest =>
      if u.idle then checkLoop rest gap now
      else if isDriverRank rk then none
      else checkLoop rest (some now) now

/-- `Room._check_no_mods_online`: returns unchanged when the stored
timestamp is truthy (`if self.no_mods_online: return`), otherwise runs the
scan loop over the member dict. -/
def check_no_mods_online (users : List (RUser × List Char))
    (gap : Option ℚ) (now : ℚ) : Option ℚ :=
  if pyTruthy gap then gap else checkLoop users gap now

/-- The rank `add_user` stores: `if not rank:` (None or the empty string,
by Python falsiness) it defaults to the stored rank, or `' '` for a new
user; otherwise the supplied rank. -/
def effectiveRank (s : RoomMembers) (u : RUser)
    (rank : Option (List Char)) : List Char :=
  match rank with
  | some r =>
      if r = [] then
        match lookupA s.users u with
        | some old => old
        | none => [' ']
      else r
  | none =>
      match lookupA s.users u with
      | some old => old
      | none => [' ']

/-- `Room.add_user(user, rank)`: the member dict is updated first (with
`effectiveRank`), then the driver-capability check runs on the updated
dict; finally the user is added to `conn.users` if its userid is unknown
there. -/
def add_user (s : RoomMembers) (u : RUser) (rank : Option (List Char))
    (now : ℚ) : RoomMembers :=
  let rk := effectiveRank s u rank
  let users2 := updateA s.users u rk
  let gap2 :=
    if hasRoleDriver users2 u then
      if u.idle then check_no_mods_online users2 s.no_mods_online now
      else none
    else s.no_mods_online
  let conn2 :=
    if (lookupA s.connUsers u.uid).isSome then s.connUsers
    else updateA s.connUsers u.uid u
  RoomMembers.mk users2 gap2 conn2

/-- `Room.remove_user(user)`: if present, pop from the member dict and
re-run `_check_no_mods_online`; `conn.users` is not touched. -/
def remove_user (s : RoomMembers) (u : RUser) (now : ℚ) : RoomMembers :=
  if (lookupA s.users u).isSome then
    let users2 := popA s.users u
    RoomMembers.mk users2 (check_no_mods_online users2 s.no_mods_online now)
      s.connUsers
  else s

/-- A membership call, with the clock reading at which it happens. -/
inductive MemOp
  | add (u : RUser) (rank : Option (List Char)) (now : ℚ)
  | remove (u : RUser) (now : ℚ)

/-- Run a sequence of membership calls on a room state. -/
def runOps (s : RoomMembers) : List MemOp → RoomMembers
  | [] => s
  | MemOp.add u rk t :: rest => runOps (add_user s u rk t) rest
  | MemOp.remove u t :: rest => runOps (remove_user s u t) rest

/-- A fresh room's membership state (`Room.__init__`): empty member dict,
`no_mods_online = None`; the Session user registry starts empty too. -/
def initRoomMembers : RoomMembers :=
  RoomMembers.mk [] none []

/-- `true` iff no currently-present, non-idle member of the room holds the
driver capability (the condition of the moderator-gap claim). -/
def noQualMod (users : List (RUser × List Char)) : Bool :=
  users.all fun p => p.1.idle || !isDriverRank p.2

/-! ### Room-scoped send helper (`Room.send`, room.py lines 158-170) -/

/-- `Room.send(message, escape)`: with escaping on, `message[0]` is read —
an `IndexError` on the empty string, embedded as `none`; a leading `'/'`
is doubled and a leading `'!'` gets a space prefixed; the payload
`f"{self.roomid}|{message}"` is handed to `conn.send`. -/
def roomSend (rid : List Char) (message : List Char) (escape : Bool) :
    Option (List Char) :=
  if escape then
    match message with
    | [] => none
    | c :: rest =>
        let m2 :=
          if c = '/' then '/' :: c :: rest
          else if c = '!' then ' ' :: c :: rest
          else c :: rest
        some (rid ++ '|' :: m2)
  else some (rid ++ '|' :: message)

/-! ### Room registry (`Room.__init__` / `Room.get`, room.py lines 45-73
and 216-230) -/

/-- A Room instance: `instId` stands for Python object identity (each
`Room.__init__` yields a fresh one), `roomid` is the registration key. -/
structure RoomObj where
  instId : Nat
  roomid : List Char
deriving DecidableEq

/-- The Session's `conn.rooms` dict plus a fresh-identity counter. -/
structure RoomRegistry where
  rooms : List (List Char × RoomObj)
  nextId : Nat
deriving DecidableEq

/-- `Room.__init__(conn, roomid)`: build a fresh instance, print a warning
when `roomid` is already registered (returned as the `Bool`), and register
the new instance under `roomid` (overriding any previous binding). -/
def roomInit (s : RoomRegistry) (rid : List Char) :
    RoomObj × RoomRegistry × Bool :=
  let r := RoomObj.mk s.nextId rid
  let warn := (lookupA s.rooms rid).isSome
  (r, RoomRegistry.mk (updateA s.rooms rid r) (s.nextId + 1), warn)

/-- `Room.get(conn, room)`: normalize, return the registered instance if
one exists, else construct one (which registers itself), store it under
the id again, and return the stored instance.  The `Bool` reports whether
the constructor warning fired. -/
def roomGet (s : RoomRegistry) (room : List Char) :
    RoomObj × RoomRegistry × Bool :=
  let rid := to_room_id room
  match lookupA s.rooms rid with
  | some r => (r, s, false)
  | none =>
      let (r, s2, w) := roomInit s rid
      let s3 := RoomRegistry.mk (updateA s2.rooms rid r) s2.nextId
      ((lookupA s3.rooms rid).getD r, s3, w)

/-! ### Receive loop termination (`Connection.start_websocket`,
connection.py lines 59-69) -/

/-- The cause that ends the `while True: recv()` loop: the two exception
types the `except` clause catches. -/
inductive TermCause
  | connClosed
  | osError
deriving DecidableEq

/-- The externally visible actions of the receive loop: scheduling a
frame's parse (`asyncio.ensure_future(self.parse_message(message))`),
stopping the admin server (`SERVER.stop()`), or attempting a reconnect —
which the code never does. -/
inductive NetAction
  | parseFrame (msg : List Char)
  | stopServer
  | reconnect
deriving DecidableEq

/-- The `except (websockets.exceptions.ConnectionClosed, OSError)` clause:
both caught exception types run `SERVER.stop()` and fall off the end of
`start_websocket`. -/
def handleTermination : TermCause → List NetAction
  | TermCause.connClosed => [NetAction.stopServer]
  | TermCause.osError => [NetAction.stopServer]

/-- `Connection.start_websocket` as its action trace: each received frame
is scheduled for parsing; when `recv` raises, the loop ends with the
`except` clause's actions and the coroutine returns (no retry, no
reconnect). -/
def start_websocket (frames : List (List Char)) (e : TermCause) :
    List NetAction :=
  frames.map NetAction.parseFrame ++ handleTermination e

/-! ### Helper lemmas -/

theorem splitOnChar_ne_nil (c : Char) (l : List Char) :
    splitOnChar c l ≠ [] := by
  induction l with
  | nil => simp [splitOnChar]
  | cons x xs ih =>
      by_cases hx : x = c
      · simp [splitOnChar, hx]
      · cases hsp : splitOnChar c xs with
        | nil => exact absurd hsp ih
        | cons y ys => simp [splitOnChar, hx, hsp]

theorem splitOnChar_cons_sep (c : Char) (xs : List Char) :
    splitOnChar c (c :: xs) = [] :: splitOnChar c xs := by
  simp [splitOnChar]

theorem splitOnChar_cons_ne (c x : Char) (xs : List Char) (hx : x ≠ c) :
    splitOnChar c (x :: xs) =
      (x :: (splitOnChar c xs).headD []) :: (splitOnChar c xs).tail := by
  cases hsp : splitOnChar c xs with
  | nil => exact absurd hsp (splitOnChar_ne_nil c xs)
  | cons y ys => simp [splitOnChar, hx, hsp]

theorem parseLines_cons_skip (tbl : List (List Char × Nat)) (rid : List Char)
    (b : Bool) (m : List Char) (l : List (List Char))
    (hm : structuredLine m = false) :
    parseLines tbl rid b (m :: l) = parseLines tbl rid b l := by
  simp [parseLines, hm]

theorem parseLines_cons_stop (tbl : List (List Char × Nat)) (rid : List Char)
    (b : Bool) (m : List Char) (l : List (List Char))
    (hm : structuredLine m = true)
    (hstop : ((b || decide (cmdOf m = initCmd)) &&
      decide (cmdOf m = tournamentCmd)) = true) :
    parseLines tbl rid b (m :: l) = [] := by
  simp only [parseLines, hm, if_true]
  rw [show (splitOnChar '|' m).getD 1 [] = cmdOf m from rfl]
  rw [hstop]
  rfl

theorem parseLines_cons_ev (tbl : List (List Char × Nat)) (rid : List Char)
    (b : Bool) (m : List Char) (l : List (List Char)) (hid : Nat)
    (hm : structuredLine m = true)
    (hstop : ((b || decide (cmdOf m = initCmd)) &&
      decide (cmdOf m = tournamentCmd)) = false)
    (hl : lookupA tbl (cmdOf m) = some hid) :
    parseLines tbl rid b (m :: l) =
      DispatchEvent.mk (cmdOf m) hid rid ((splitOnChar '|' m).drop 2) ::
        parseLines tbl rid (b || decide (cmdOf m = initCmd)) l := by
  simp only [parseLines, hm, if_true]
  rw [show (splitOnChar '|' m).getD 1 [] = cmdOf m from rfl]
  rw [hstop, hl]
  simp

theorem parseLines_cons_noev (tbl : List (List Char × Nat)) (rid : List Char)
    (b : Bool) (m : List Char) (l : List (List Char))
    (hm : structuredLine m = true)
    (hstop : ((b || decide (cmdOf m = initCmd)) &&
      decide (cmdOf m = tournamentCmd)) = false)
    (hl : lookupA tbl (cmdOf m) = none) :
    parseLines tbl rid b (m :: l) =
      parseLines tbl rid (b || decide (cmdOf m = initCmd)) l := by
  simp only [parseLines, hm, if_true]
  rw [show (splitOnChar '|' m).getD 1 [] = cmdOf m from rfl]
  rw [hstop, hl]
  simp

theorem lineEvent_skip (tbl : List (List Char × Nat)) (rid : List Char)
    (m : List Char) (hm : structuredLine m = false) :
    lineEvent tbl rid m = none := by
  simp [lineEvent, hm]

theorem lineEvent_som (tbl : List (List Char × Nat)) (rid : List Char)
    (m : List Char) (hid : Nat) (hm : structuredLine m = true)
    (hl : lookupA tbl (cmdOf m) = some hid) :
    lineEvent tbl rid m =
      some (DispatchEvent.mk (cmdOf m) hid rid ((splitOnChar '|' m).drop 2)) := by
  simp only [lineEvent, hm, if_true]
  rw [show (splitOnChar '|' m).getD 1 [] = cmdOf m from rfl]
  rw [hl]

theorem lineEvent_non (tbl : List (List Char × Nat)) (rid : List Char)
    (m : List Char) (hm : structuredLine m = true)
    (hl : lookupA tbl (cmdOf m) = none) :
    lineEvent tbl rid m = none := by
  simp only [lineEvent, hm, if_true]
  rw [show (splitOnChar '|' m).getD 1 [] = cmdOf m from rfl]
  rw [hl]

theorem sendStep_state (s : SendState) (c : ℚ) :
    (sendStep s c).1 = SendState.mk c := by
  unfold sendStep
  split <;> rfl

/-! ### Claim theorems -/

/-- C9: both exception types the receive loop catches (the protocol-level
`ConnectionClosed` and the I/O-level `OSError`) are handled identically as
clean termination: the loop's trace is the scheduled frame parses followed
by `SERVER.stop()`, and no reconnect action ever appears — exiting the
receive loop is terminal. -/
theorem start_websocket_terminal (frames : List (List Char)) (e : TermCause) :
    start_websocket frames TermCause.connClosed =
      start_websocket frames TermCause.osError ∧
    start_websocket frames e =
      frames.map NetAction.parseFrame ++ [NetAction.stopServer] ∧
    NetAction.reconnect ∉ start_websocket frames e := by
  refine ⟨rfl, ?_, ?_⟩
  · cases e <;> rfl
  · cases e <;>
      simp [start_websocket, handleTermination, List.mem_append, List.mem_map]

/-- C10: `Room.send` with escaping is partial on the empty message
(`message[0]` raises `IndexError`, embedded as `none`); on a non-empty
message it is total: a leading `'/'` is doubled, a leading `'!'` gets a
space prefixed, any other message is unchanged, and the payload
`roomid + '|' + message` goes to the core send primitive. -/
theorem room_send_escape (rid rest : List Char) (c : Char) :
    roomSend rid [] true = none ∧
    roomSend rid ('/' :: rest) true = some (rid ++ '|' :: '/' :: '/' :: rest) ∧
    roomSend rid ('!' :: rest) true = some (rid ++ '|' :: ' ' :: '!' :: rest) ∧
    (c ≠ '/' → c ≠ '!' →
      roomSend rid (c :: rest) true = some (rid ++ '|' :: c :: rest)) := by
  refine ⟨rfl, ?_, ?_, ?_⟩
  · simp [roomSend]
  · simp [roomSend]
  · intro h1 h2
    simp [roomSend, h1, h2]

/-- C10 witness: a concrete ordinary message is forwarded unchanged. -/
theorem room_send_escape_witness :
    roomSend ['x'] ['a'] true = some (['x'] ++ '|' :: 'a' :: []) :=
  (room_send_escape ['x'] [] 'a').2.2.2 (by decide) (by decide)

/-- C3 counterexample: two `send` calls issued back to back — the second
starts exactly when the first call's delayed transmission happens — yet
the second transmission occurs at the same instant as the first, i.e.
strictly earlier than 0.1 after it.  With `lastmessage = 0`, a call at
time 0 sleeps and transmits at 0.1 while recording `lastmessage = 0`; the
follow-up call at time 0.1 sees `0.1 - 0 >= 0.1`, does not sleep, and
transmits at 0.1 as well.  This refutes the claim that the second call's
transmission occurs no earlier than 0.1 after the first's transmission. -/
theorem send_min_spacing_counterexample :
    (sendStep (SendState.mk 0) 0).2 = 1 / 10 ∧
    (sendStep (SendState.mk 0) 0).1 = SendState.mk 0 ∧
    (sendStep (SendState.mk 0) (1 / 10)).2 = 1 / 10 ∧
    (sendStep (SendState.mk 0) (1 / 10)).2 <
      (sendStep (SendState.mk 0) 0).2 + 1 / 10 := by
  norm_num [sendStep]

/-- C3 amended: the spacing `send` actually enforces is relative to the
previous call's start, not its transmission: for two consecutive calls,
the second transmission occurs no earlier than 0.1 after the first call's
recorded call time, and whenever less than 0.1 has elapsed since that
recorded time the second call suspends for 0.1 (transmitting at its call
time plus 0.1).  Because `lastmessage` records call time rather than
transmission time, consecutive transmissions can still be closer than
0.1 apart (see the counterexample). -/
theorem send_min_spacing (s : SendState) (c1 c2 : ℚ) (h : c1 ≤ c2) :
    c1 + 1 / 10 ≤ (sendStep (sendStep s c1).1 c2).2 ∧
    (c2 - c1 < 1 / 10 → (sendStep (sendStep s c1).1 c2).2 = c2 + 1 / 10) := by
  rw [sendStep_state]
  constructor
  · unfold sendStep
    split
    · rename_i h2
      have h3 : c2 - c1 < 1 / 10 := h2
      linarith
    · rename_i h2
      push_neg at h2
      linarith
  · intro hlt
    unfold sendStep
    rw [if_pos (show c2 - (SendState.mk c1).lastmessage < 1 / 10 from hlt)]

/-- C3 witness: two calls at the same instant — the second is delayed to
0.1 after the first call's start. -/
theorem send_min_spacing_witness :
    (5 : ℚ) + 1 / 10 ≤ (sendStep (sendStep (SendState.mk 0) 5).1 5).2 :=
  (send_min_spacing (SendState.mk 0) 5 5 (le_refl 5)).1

/-- C1 counterexample: `try_modchat` fires although fewer than 7 hours
have elapsed since the gap began.  The code requires
`no_mods_online + (7 * 60) < time()` — 420 of the clock's time-units
(seconds), i.e. 7 minutes — not 7 hours (25200 units).  Here the gap
began at time 1 and the call happens at time 1000, so only 999 units have
elapsed, yet the command is emitted. -/
theorem try_modchat_seven_hours_counterexample :
    (try_modchat (ModRoom.mk false (some 1) 0) 100 1000).2 = some modchatPlus ∧
    (1000 : ℚ) - 1 < 7 * 3600 := by
  constructor
  · simp [try_modchat, pyTruthy]
    norm_num
  · norm_num

/-- C1 amended: for a room whose modchat flag is not elevated,
`try_modchat` emits `'/modchat +'` iff the moderator-gap timestamp holds a
nonzero value `t`, the Europe/Rome time-of-day satisfies
`30 <= minutes < 480` (the [00:30, 08:00) window), strictly more than
`7 * 60 = 420` time-units (7 minutes, not 7 hours) have elapsed since the
gap began (`t + 420 < now`), and strictly more than 15 time-units have
elapsed since the last fire; when it fires it records the fire time in
`last_modchat_command`, and otherwise it leaves the room unchanged. -/
theorem try_modchat_policy (r : ModRoom) (minutes : ℕ) (now : ℚ)
    (hmod : r.modchat = false) :
    ((try_modchat r minutes now).2 = some modchatPlus ↔
      ∃ t : ℚ, r.no_mods_online = some t ∧ t ≠ 0 ∧ 30 ≤ minutes ∧
        minutes < 8 * 60 ∧ t + 7 * 60 < now ∧
        r.last_modchat_command + 15 < now) ∧
    ((try_modchat r minutes now).2 = some modchatPlus →
      (try_modchat r minutes now).1 = ModRoom.mk false r.no_mods_online now) ∧
    ((try_modchat r minutes now).2 = none →
      (try_modchat r minutes now).1 = r) := by
  unfold try_modchat
  rw [hmod]
  cases hno : r.no_mods_online with
  | none => simp [pyTruthy]
  | some t =>
      by_cases ht : t = 0
      · subst ht
        simp [pyTruthy]
      · by_cases hcond : 30 ≤ minutes ∧ minutes < 8 * 60 ∧ t + 7 * 60 < now ∧
            r.last_modchat_command + 15 < now
        · simp [pyTruthy, ht, hcond]
        · simp [pyTruthy, ht, hcond]

/-- C1 witness: a concrete firing instance (gap began at 1, call at 1000,
02:40 less 01:40 local time — minutes = 100). -/
theorem try_modchat_policy_witness :
    (try_modchat (ModRoom.mk false (some 1) 0) 100 1000).2 =
      some modchatPlus :=
  (try_modchat_policy (ModRoom.mk false (some 1) 0) 100 1000 rfl).1.mpr
    ⟨1, rfl, by norm_num, by norm_num, by norm_num, by norm_num, by norm_num⟩

/-- C7: a Session registers at most one Room per normalized identifier.
`Room.get` returns the already-registered instance when one exists for the
normalized id and otherwise creates-and-registers a new one, so two `get`
calls with strings normalizing to the same id return the same instance
(the second call changes nothing and warns nothing); the instance `get`
returns is the one registered under the id; `get` preserves the
one-binding-per-key dict invariant; and directly constructing a Room under
an already-registered id emits the warning and replaces the binding rather
than adding a duplicate. -/
theorem room_get_unique (s : RoomRegistry) (r1 r2 : List Char)
    (hnorm : to_room_id r1 = to_room_id r2) (hnd : keysNodup s.rooms) :
    ((roomGet (roomGet s r1).2.1 r2).1 = (roomGet s r1).1 ∧
      (roomGet (roomGet s r1).2.1 r2).2.1 = (roomGet s r1).2.1 ∧
      (roomGet (roomGet s r1).2.1 r2).2.2 = false) ∧
    lookupA (roomGet s r1).2.1.rooms (to_room_id r1) = some (roomGet s r1).1 ∧
    keysNodup (roomGet s r1).2.1.rooms ∧
    (∀ rid, (lookupA s.rooms rid).isSome →
      (roomInit s rid).2.2 = true ∧
      lookupA (roomInit s rid).2.1.rooms rid = some (roomInit s rid).1 ∧
      keysNodup (roomInit s rid).2.1.rooms) := by
  have roomGet_hit : ∀ (st : RoomRegistry) (room : List Char) (r : RoomObj),
      lookupA st.rooms (to_room_id room) = some r →
      roomGet st room = (r, st, false) := by
    intro st room r h
    simp [roomGet, h]
  have hinitPart : ∀ rid, (lookupA s.rooms rid).isSome →
      (roomInit s rid).2.2 = true ∧
      lookupA (roomInit s rid).2.1.rooms rid = some (roomInit s rid).1 ∧
      keysNodup (roomInit s rid).2.1.rooms := by
    intro rid hsome
    refine ⟨by simp [roomInit, hsome], ?_, ?_⟩
    · simp [roomInit, lookupA_updateA_self]
    · exact keysNodup_updateA hnd _ _
  cases hx : lookupA s.rooms (to_room_id r1) with
  | some r =>
      have hget1 : roomGet s r1 = (r, s, false) := roomGet_hit s r1 r hx
      have hget2 : roomGet s r2 = (r, s, false) :=
        roomGet_hit s r2 r (hnorm ▸ hx)
      refine ⟨?_, ?_, ?_, hinitPart⟩
      · rw [hget1]
        simp [hget2]
      · rw [hget1]
        exact hx
      · rw [hget1]
        exact hnd
  | none =>
      have hget1 : roomGet s r1 =
          (RoomObj.mk s.nextId (to_room_id r1),
            RoomRegistry.mk
              (updateA (updateA s.rooms (to_room_id r1)
                  (RoomObj.mk s.nextId (to_room_id r1)))
                (to_room_id r1) (RoomObj.mk s.nextId (to_room_id r1)))
              (s.nextId + 1),
            false) := by
        simp [roomGet, hx, roomInit, lookupA_updateA_self]
      have hlook : lookupA (roomGet s r1).2.1.rooms (to_room_id r1) =
          some (roomGet s r1).1 := by
        rw [hget1]
        simp [lookupA_updateA_self]
      refine ⟨?_, hlook, ?_, hinitPart⟩
      · have hget2 : roomGet (roomGet s r1).2.1 r2 =
            ((roomGet s r1).1, (roomGet s r1).2.1, false) :=
          roomGet_hit (roomGet s r1).2.1 r2 (roomGet s r1).1 (hnorm ▸ hlook)
        rw [hget2]
        exact ⟨rfl, rfl, rfl⟩
      · rw [hget1]
        exact keysNodup_updateA (keysNodup_updateA hnd _ _) _ _

/-- C7 witness: on an empty registry, `get("Lobby")` then `get("LOBBY")`
yield the same instance. -/
theorem room_get_unique_witness :
    (roomGet (roomGet (RoomRegistry.mk [] 0)
        ['L', 'o', 'b', 'b', 'y']).2.1 ['L', 'O', 'B', 'B', 'Y']).1 =
      (roomGet (RoomRegistry.mk [] 0) ['L', 'o', 'b', 'b', 'y']).1 :=
  (room_get_unique (RoomRegistry.mk [] 0) ['L', 'o', 'b', 'b', 'y']
    ['L', 'O', 'B', 'B', 'Y'] (by decide) (by simp [keysNodup])).1.1

/-- C8 counterexample: supplying the empty string as `rank` does NOT
overwrite the stored rank.  `add_user` guards with Python falsiness
(`if not rank:`), so `rank=""` is treated like `rank=None`: a member
stored with rank `'@'` keeps `'@'` after `add_user(user, "")`, although
the claim says a supplied rank overwrites the stored one. -/
theorem add_user_empty_rank_counterexample :
    lookupA (add_user
        (RoomMembers.mk [(RUser.mk 1 false, ['@'])] none [(1, RUser.mk 1 false)])
        (RUser.mk 1 false) (some []) 0).users (RUser.mk 1 false) =
      some ['@'] ∧
    (['@'] : List Char) ≠ ([] : List Char) := by
  constructor
  · rfl
  · decide

/-- C8 amended: `add_user(user, rank)` upserts the user into the member
mapping, with Python falsiness deciding whether a rank was supplied: when
`rank` is `None` or the empty string, a new user receives the unranked
rank `' '` and an existing user keeps their stored rank; a supplied
non-empty rank overwrites the stored rank.  The user is added to the
Session's global registry only if its userid is not already known.  The
moderator-gap field is updated only when the user holds the driver
capability after the upsert: cleared if they are active, re-derived by
`_check_no_mods_online` on the updated mapping if they are idle, and left
unchanged otherwise. -/
theorem add_user_upsert (s : RoomMembers) (u : RUser)
    (rank : Option (List Char)) (now : ℚ) :
    ((rank = none ∨ rank = some []) →
      (lookupA s.users u = none →
        lookupA (add_user s u rank now).users u = some [' ']) ∧
      (∀ rk0, lookupA s.users u = some rk0 →
        lookupA (add_user s u rank now).users u = some rk0)) ∧
    (∀ rk, rank = some rk → rk ≠ [] →
      lookupA (add_user s u rank now).users u = some rk) ∧
    ((lookupA s.connUsers u.uid).isSome →
      (add_user s u rank now).connUsers = s.connUsers) ∧
    (lookupA s.connUsers u.uid = none →
      lookupA (add_user s u rank now).connUsers u.uid = some u) ∧
    ((add_user s u rank now).no_mods_online =
      if hasRoleDriver (add_user s u rank now).users u then
        (if u.idle then
          check_no_mods_online (add_user s u rank now).users
            s.no_mods_online now
        else none)
      else s.no_mods_online) := by
  refine ⟨?_, ?_, ?_, ?_, ?_⟩
  · rintro (hr | hr) <;> subst hr
    · exact ⟨fun h => by simp [add_user, effectiveRank, h, lookupA_updateA_self],
        fun rk0 h => by simp [add_user, effectiveRank, h, lookupA_updateA_self]⟩
    · exact ⟨fun h => by simp [add_user, effectiveRank, h, lookupA_updateA_self],
        fun rk0 h => by simp [add_user, effectiveRank, h, lookupA_updateA_self]⟩
  · rintro rk rfl hne
    simp [add_user, effectiveRank, hne, lookupA_updateA_self]
  · intro h
    simp [add_user, h]
  · intro h
    simp [add_user, h, lookupA_updateA_self]
  · rcases hc : lookupA s.connUsers u.uid with _ | w <;>
      simp [add_user, hc]

/-- C8 witness: adding a fresh user with no rank stores the unranked rank
`' '`. -/
theorem add_user_upsert_witness :
    lookupA (add_user initRoomMembers (RUser.mk 1 false) none 0).users
      (RUser.mk 1 false) = some [' '] :=
  ((add_user_upsert initRoomMembers (RUser.mk 1 false) none 0).1
    (Or.inl rfl)).1 rfl

theorem firstLine_head (message : List Char) :
    ((splitOnChar '\n' message).headD []).headD ' ' = '>' ↔
      message.headD ' ' = '>' := by
  cases message with
  | nil =>
      simp [splitOnChar]
  | cons c rest =>
      by_cases hc : c = '\n'
      · subst hc
        rw [splitOnChar_cons_sep]
        simp only [List.headD_cons]
        constructor <;> intro h <;> exact absurd h (by decide)
      · rw [splitOnChar_cons_ne '\n' c rest hc]
        simp

theorem parseLines_filter (tbl : List (List Char × Nat)) (rid : List Char) :
    ∀ (msgs : List (List Char)) (b : Bool),
      parseLines tbl rid b msgs =
        parseLines tbl rid b (msgs.filter structuredLine) := by
  intro msgs
  induction msgs with
  | nil => intro b; rfl
  | cons m rest ih =>
      intro b
      by_cases hm : structuredLine m = true
      · rw [List.filter_cons_of_pos hm]
        by_cases hstop : ((b || decide (cmdOf m = initCmd)) &&
            decide (cmdOf m = tournamentCmd)) = true
        · rw [parseLines_cons_stop tbl rid b m rest hm hstop,
            parseLines_cons_stop tbl rid b m (rest.filter structuredLine) hm
              hstop]
        · have hstop2 : ((b || decide (cmdOf m = initCmd)) &&
              decide (cmdOf m = tournamentCmd)) = false := by
            simpa using hstop
          cases hl : lookupA tbl (cmdOf m) with
          | some hid =>
              rw [parseLines_cons_ev tbl rid b m rest hid hm hstop2 hl,
                parseLines_cons_ev tbl rid b m (rest.filter structuredLine)
                  hid hm hstop2 hl,
                ih (b || decide (cmdOf m = initCmd))]
          | none =>
              rw [parseLines_cons_noev tbl rid b m rest hm hstop2 hl,
                parseLines_cons_noev tbl rid b m (rest.filter structuredLine)
                  hm hstop2 hl,
                ih (b || decide (cmdOf m = initCmd))]
      · have hm2 : structuredLine m = false := by simpa using hm
        rw [List.filter_cons_of_neg (by simp [hm2]),
          parseLines_cons_skip tbl rid b m rest hm2, ih b]

/-- C5: frame decoding.  (a) When the first line of the frame begins with
the room-header sentinel `'>'`, the roomid is the normalization of that
first line, and otherwise it is the empty/global room identifier.
(b) Dispatch ignores lines that do not begin with `'|'`: the dispatch
trace of any line list equals that of its structured-lines-only
sublist.  (c) A structured line split on `'|'` has field 0 empty, and its
dispatch invokes the handler registered for field 1 (the command name)
with fields 2 onward as raw argument strings — or nothing when no handler
is registered.  (d) An empty frame dispatches nothing. -/
theorem parse_message_codec (tbl : List (List Char × Nat)) (rid : List Char)
    (b : Bool) (message msg : List Char) (msgs : List (List Char))
    (hid : Nat) :
    (((splitOnChar '\n' message).headD []).headD ' ' = '>' →
      roomidOf message = to_room_id ((splitOnChar '\n' message).headD [])) ∧
    (((splitOnChar '\n' message).headD []).headD ' ' ≠ '>' →
      roomidOf message = []) ∧
    (parseLines tbl rid b msgs =
      parseLines tbl rid b (msgs.filter structuredLine)) ∧
    (structuredLine msg = true →
      (splitOnChar '|' msg).headD [' '] = [] ∧
      (lookupA tbl (cmdOf msg) = some hid →
        parseLines tbl rid false [msg] =
          [DispatchEvent.mk (cmdOf msg) hid rid
            ((splitOnChar '|' msg).drop 2)]) ∧
      (lookupA tbl (cmdOf msg) = none →
        parseLines tbl rid false [msg] = [])) ∧
    parse_message tbl [] = [] := by
  have hstop0 : ((false || decide (cmdOf msg = initCmd)) &&
      decide (cmdOf msg = tournamentCmd)) = false := by
    by_cases h1 : cmdOf msg = tournamentCmd
    · simp only [h1]
      decide
    · simp [h1]
  refine ⟨?_, ?_, parseLines_filter tbl rid msgs b, ?_, rfl⟩
  · intro h
    have hm : message.headD ' ' = '>' := (firstLine_head message).mp h
    unfold roomidOf roomHeaderOf
    rw [if_pos hm]
  · intro h
    have hm : ¬ message.headD ' ' = '>' :=
      fun hx => h ((firstLine_head message).mpr hx)
    unfold roomidOf roomHeaderOf
    rw [if_neg hm]
    rfl
  · intro hs
    refine ⟨?_, ?_, ?_⟩
    · cases msg with
      | nil => simp [structuredLine] at hs
      | cons c0 tail =>
          have hc0 : c0 = '|' := by simpa [structuredLine] using hs
          subst hc0
          rw [splitOnChar_cons_sep]
          rfl
    · intro hl
      rw [parseLines_cons_ev tbl rid false msg [] hid hs hstop0 hl]
      rfl
    · intro hl
      rw [parseLines_cons_noev tbl rid false msg [] hs hstop0 hl]
      rfl

/-- C5 witness: the single structured line `'|join|Alice'` with a handler
registered for `'join'` dispatches that handler with the raw argument
fields. -/
theorem parse_message_codec_witness :
    parseLines [(joinCmd, 7)] [] false
        [('|' :: joinCmd) ++ ('|' :: ['A', 'l', 'i', 'c', 'e'])] =
      [DispatchEvent.mk (cmdOf (('|' :: joinCmd) ++ ('|' :: ['A', 'l', 'i', 'c', 'e'])))
        7 []
        ((splitOnChar '|' (('|' :: joinCmd) ++ ('|' :: ['A', 'l', 'i', 'c', 'e']))).drop 2)] :=
  ((parse_message_codec [(joinCmd, 7)] [] false []
      (('|' :: joinCmd) ++ ('|' :: ['A', 'l', 'i', 'c', 'e'])) [] 7).2.2.2.1
    (by decide)).2.1 (by decide)

/-- C4: once a structured line with command `'init'` has been processed in
a frame, a later structured line with command `'tournament'` stops
processing at that line: the dispatch trace of the whole line list equals
the trace of the lines before the tournament line — neither it nor any
subsequent line is dispatched.  (The `Bool` disjunct covers an init flag
already set by an earlier portion of the frame.) -/
theorem init_tournament_truncates (tbl : List (List Char × Nat))
    (rid t : List Char) (pre suf : List (List Char)) (b : Bool)
    (ht : structuredLine t = true) (htc : cmdOf t = tournamentCmd)
    (hpre : b = true ∨ ∃ m ∈ pre, structuredLine m = true ∧ cmdOf m = initCmd) :
    parseLines tbl rid b (pre ++ t :: suf) = parseLines tbl rid b pre := by
  induction pre generalizing b with
  | nil =>
      rcases hpre with hb | ⟨m, hm, _⟩
      · subst hb
        have hstop : ((true || decide (cmdOf t = initCmd)) &&
            decide (cmdOf t = tournamentCmd)) = true := by
          simp [htc]
        rw [List.nil_append,
          parseLines_cons_stop tbl rid true t suf ht hstop]
        rfl
      · exact absurd hm (List.not_mem_nil m)
  | cons m pre2 ih =>
      rw [List.cons_append]
      by_cases hm : structuredLine m = true
      · by_cases hstop : ((b || decide (cmdOf m = initCmd)) &&
            decide (cmdOf m = tournamentCmd)) = true
        · rw [parseLines_cons_stop tbl rid b m (pre2 ++ t :: suf) hm hstop,
            parseLines_cons_stop tbl rid b m pre2 hm hstop]
        · have hstop2 : ((b || decide (cmdOf m = initCmd)) &&
              decide (cmdOf m = tournamentCmd)) = false := by
            simpa using hstop
          have hpre2 : (b || decide (cmdOf m = initCmd)) = true ∨
              ∃ m2 ∈ pre2, structuredLine m2 = true ∧ cmdOf m2 = initCmd := by
            rcases hpre with hb | ⟨m2, hm2, hs2, hc2⟩
            · exact Or.inl (by simp [hb])
            · rcases List.mem_cons.mp hm2 with rfl | hmem
              · exact Or.inl (by simp [hc2])
              · exact Or.inr ⟨m2, hmem, hs2, hc2⟩
          cases hl : lookupA tbl (cmdOf m) with
          | some hid =>
              rw [parseLines_cons_ev tbl rid b m (pre2 ++ t :: suf) hid hm
                  hstop2 hl,
                parseLines_cons_ev tbl rid b m pre2 hid hm hstop2 hl,
                ih (b || decide (cmdOf m = initCmd)) hpre2]
          | none =>
              rw [parseLines_cons_noev tbl rid b m (pre2 ++ t :: suf) hm
                  hstop2 hl,
                parseLines_cons_noev tbl rid b m pre2 hm hstop2 hl,
                ih (b || decide (cmdOf m = initCmd)) hpre2]
      · have hm2 : structuredLine m = false := by simpa using hm
        rw [parseLines_cons_skip tbl rid b m (pre2 ++ t :: suf) hm2,
          parseLines_cons_skip tbl rid b m pre2 hm2]
        apply ih
        rcases hpre with hb | ⟨m2, hm2m, hs2, hc2⟩
        · exact Or.inl hb
        · rcases List.mem_cons.mp hm2m with rfl | hmem
          · simp [hs2] at hm2
          · exact Or.inr ⟨m2, hmem, hs2, hc2⟩

/-- C4 witness: a frame `['|init', '|tournament', '|join']` dispatches
exactly what `['|init']` alone dispatches, with every command registered. -/
theorem init_tournament_truncates_witness :
    parseLines [(initCmd, 0), (tournamentCmd, 2), (joinCmd, 1)] [] false
        ([('|' :: initCmd)] ++ ('|' :: tournamentCmd) :: [('|' :: joinCmd)]) =
      parseLines [(initCmd, 0), (tournamentCmd, 2), (joinCmd, 1)] [] false
        [('|' :: initCmd)] :=
  init_tournament_truncates [(initCmd, 0), (tournamentCmd, 2), (joinCmd, 1)]
    [] ('|' :: tournamentCmd) [('|' :: initCmd)] [('|' :: joinCmd)] false
    (by decide) (by decide)
    (Or.inr ⟨'|' :: initCmd, by simp, by decide, by decide⟩)

/-- C6 counterexample: the dispatch table is a Python dict with a single
handler per command name, so registering two handlers for `'join'` keeps
only the second: dispatching one `'|join|Alice'` line invokes handler 2
and never handler 1, refuting the claim that all handlers registered for
a name are invoked. -/
theorem handler_overwrite_counterexample :
    (joinCmd, 1) ∈ [(joinCmd, 1), (joinCmd, 2)] ∧
    dictInsertAll [(joinCmd, 1), (joinCmd, 2)] = [(joinCmd, 2)] ∧
    (parseLines (dictInsertAll [(joinCmd, 1), (joinCmd, 2)]) [] false
        [('|' :: joinCmd) ++ ('|' :: ['A', 'l', 'i', 'c', 'e'])]).map
      DispatchEvent.hid = [2] ∧
    (1 : Nat) ∉
      (parseLines (dictInsertAll [(joinCmd, 1), (joinCmd, 2)]) [] false
        [('|' :: joinCmd) ++ ('|' :: ['A', 'l', 'i', 'c', 'e'])]).map
        DispatchEvent.hid := by
  refine ⟨by decide, by decide, by decide, by decide⟩

/-- C6 amended: the dispatch table holds at most one handler per command
name — its keys stay duplicate-free and a later registration under a name
overwrites the earlier one — and dispatch within a frame is strictly
sequential in line order: the trace of a line list is the in-order
per-line dispatch (`lineEvent`) of an initial segment of the lines (the
whole list, or a prefix when the init/tournament truncation fires).  In
particular the (unique) handler invocation of a line is completed before
any later line contributes to the trace. -/
theorem dispatch_sequential (tbl : List (List Char × Nat)) (rid : List Char)
    (msgs : List (List Char)) (b : Bool) (regs : List (List Char × Nat))
    (c : List Char) (v : Nat) :
    (∃ k, k ≤ msgs.length ∧
      parseLines tbl rid b msgs =
        (msgs.take k).filterMap (lineEvent tbl rid)) ∧
    lookupA (dictInsertAll (regs ++ [(c, v)])) c = some v ∧
    keysNodup (dictInsertAll regs) := by
  refine ⟨?_, ?_, ?_⟩
  · induction msgs generalizing b with
    | nil => exact ⟨0, by simp, rfl⟩
    | cons m rest ih =>
        by_cases hm : structuredLine m = true
        · by_cases hstop : ((b || decide (cmdOf m = initCmd)) &&
              decide (cmdOf m = tournamentCmd)) = true
          · refine ⟨0, by simp, ?_⟩
            rw [parseLines_cons_stop tbl rid b m rest hm hstop]
            rfl
          · have hstop2 : ((b || decide (cmdOf m = initCmd)) &&
                decide (cmdOf m = tournamentCmd)) = false := by
              simpa using hstop
            obtain ⟨k, hk, hek⟩ := ih (b || decide (cmdOf m = initCmd))
            cases hl : lookupA tbl (cmdOf m) with
            | some hid =>
                refine ⟨k + 1, by simpa using Nat.succ_le_succ hk, ?_⟩
                rw [parseLines_cons_ev tbl rid b m rest hid hm hstop2 hl,
                  hek, List.take_succ_cons]
                simp [List.filterMap_cons, lineEvent_som tbl rid m hid hm hl]
            | none =>
                refine ⟨k + 1, by simpa using Nat.succ_le_succ hk, ?_⟩
                rw [parseLines_cons_noev tbl rid b m rest hm hstop2 hl,
                  hek, List.take_succ_cons]
                simp [List.filterMap_cons, lineEvent_non tbl rid m hm hl]
        · have hm2 : structuredLine m = false := by simpa using hm
          obtain ⟨k, hk, hek⟩ := ih b
          refine ⟨k + 1, by simpa using Nat.succ_le_succ hk, ?_⟩
          rw [parseLines_cons_skip tbl rid b m rest hm2, hek,
            List.take_succ_cons]
          simp [List.filterMap_cons, lineEvent_skip tbl rid m hm2]
  · show lookupA ((regs ++ [(c, v)]).foldl (fun m p => updateA m p.1 p.2) [])
      c = some v
    rw [List.foldl_append, List.foldl_cons, List.foldl_nil]
    exact lookupA_updateA_self _ c v
  · have hgen : ∀ (rs m : List (List Char × Nat)), keysNodup m →
        keysNodup (rs.foldl (fun acc p => updateA acc p.1 p.2) m) := by
      intro rs
      induction rs with
      | nil => intro m hm; exact hm
      | cons p rs2 ih2 =>
          intro m hm
          exact ih2 _ (keysNodup_updateA hm p.1 p.2)
    exact hgen regs [] (by simp [keysNodup])

theorem checkLoop_some (l : List (RUser × List Char)) :
    ∀ (gap : Option ℚ) (now t : ℚ), checkLoop l gap now = some t →
      noQualMod l = true := by
  induction l with
  | nil =>
      intro gap now t h
      rfl
  | cons p rest ih =>
      intro gap now t h
      obtain ⟨u, rk⟩ := p
      by_cases hi : u.idle = true
      · simp only [checkLoop, hi, if_true] at h
        have hrest := ih gap now t h
        simp [noQualMod, hi] at hrest ⊢
        exact hrest
      · have hi2 : u.idle = false := by simpa using hi
        by_cases hd : isDriverRank rk = true
        · simp only [checkLoop, hi2, if_false, hd, if_true] at h
          cases h
        · have hd2 : isDriverRank rk = false := by simpa using hd
          simp only [checkLoop, hi2, if_false, hd2] at h
          have hrest := ih (some now) now t h
          simp [noQualMod, hi2, hd2] at hrest ⊢
          exact hrest

theorem check_some_noQual (users : List (RUser × List Char)) (gap : Option ℚ)
    (now : ℚ) (hg : gap.isSome = true → noQualMod users = true)
    (h : (check_no_mods_online users gap now).isSome = true) :
    noQualMod users = true := by
  unfold check_no_mods_online at h
  by_cases hp : pyTruthy gap = true
  · rw [if_pos hp] at h
    exact hg h
  · rw [if_neg hp] at h
    obtain ⟨t, ht⟩ := Option.isSome_iff_exists.mp h
    exact checkLoop_some users gap now t ht

theorem noQualMod_updateA (s : List (RUser × List Char)) (u : RUser)
    (rk : List Char) (hall : noQualMod s = true)
    (hu : (u.idle || !isDriverRank rk) = true) :
    noQualMod (updateA s u rk) = true := by
  rw [noQualMod, List.all_eq_true]
  intro p hp
  rcases mem_updateA hp with rfl | hmem
  · exact hu
  · exact List.all_eq_true.mp hall p hmem

theorem noQualMod_popA (s : List (RUser × List Char)) (u : RUser)
    (hall : noQualMod s = true) :
    noQualMod (popA s u) = true := by
  rw [noQualMod, List.all_eq_true]
  intro p hp
  exact List.all_eq_true.mp hall p (mem_popA hp)

theorem add_user_inv (s : RoomMembers) (u : RUser)
    (rank : Option (List Char)) (now : ℚ)
    (h : s.no_mods_online.isSome = true → noQualMod s.users = true) :
    (add_user s u rank now).no_mods_online.isSome = true →
      noQualMod (add_user s u rank now).users = true := by
  intro hsome
  have husers : (add_user s u rank now).users =
      updateA s.users u (effectiveRank s u rank) := rfl
  have hgap : (add_user s u rank now).no_mods_online =
      (if hasRoleDriver (updateA s.users u (effectiveRank s u rank)) u then
        (if u.idle then
          check_no_mods_online (updateA s.users u (effectiveRank s u rank))
            s.no_mods_online now
        else none)
      else s.no_mods_online) := rfl
  rw [husers]
  rw [hgap] at hsome
  by_cases hd : hasRoleDriver (updateA s.users u (effectiveRank s u rank)) u
      = true
  · rw [if_pos hd] at hsome
    by_cases hi : u.idle = true
    · rw [if_pos hi] at hsome
      refine check_some_noQual _ _ _ ?_ hsome
      intro hgap2
      exact noQualMod_updateA s.users u _ (h hgap2) (by simp [hi])
    · rw [if_neg hi] at hsome
      simp at hsome
  · rw [if_neg hd] at hsome
    have hnd : isDriverRank (effectiveRank s u rank) = false := by
      have hl := lookupA_updateA_self s.users u (effectiveRank s u rank)
      unfold hasRoleDriver at hd
      rw [hl] at hd
      simpa using hd
    exact noQualMod_updateA s.users u _ (h hsome) (by simp [hnd])

theorem remove_user_inv (s : RoomMembers) (u : RUser) (now : ℚ)
    (h : s.no_mods_online.isSome = true → noQualMod s.users = true) :
    (remove_user s u now).no_mods_online.isSome = true →
      noQualMod (remove_user s u now).users = true := by
  unfold remove_user
  by_cases hp : (lookupA s.users u).isSome = true
  · rw [if_pos hp]
    intro hsome
    refine check_some_noQual _ _ _ ?_ hsome
    intro hgap
    exact noQualMod_popA s.users u (h hgap)
  · rw [if_neg hp]
    exact h

theorem runOps_inv (ops : List MemOp) :
    ∀ s : RoomMembers,
      (s.no_mods_online.isSome = true → noQualMod s.users = true) →
      ((runOps s ops).no_mods_online.isSome = true →
        noQualMod (runOps s ops).users = true) := by
  induction ops with
  | nil =>
      intro s h
      exact h
  | cons op rest ih =>
      intro s h
      cases op with
      | add u rk t => exact ih _ (add_user_inv s u rk t h)
      | remove u t => exact ih _ (remove_user_inv s u t h)

/-- C2 counterexample: the claimed iff fails.  Starting from a fresh room
and adding one non-idle member with no moderator capability, the member
mapping contains no qualifying moderator (`noQualMod` holds), yet the
moderator-gap timestamp is still `None`: `add_user` recomputes the gap
only when the added user holds the driver capability, and a room that
never had a moderator keeps a null timestamp. -/
theorem no_mods_iff_counterexample :
    (runOps initRoomMembers
      [MemOp.add (RUser.mk 0 false) none 5]).no_mods_online = none ∧
    noQualMod (runOps initRoomMembers
      [MemOp.add (RUser.mk 0 false) none 5]).users = true :=
  ⟨rfl, rfl⟩

/-- C2 amended: only the forward direction of the claimed iff holds.
After every finite sequence of `add_user`/`remove_user` calls on a fresh
room, if the moderator-gap timestamp is non-null then no
currently-present, non-idle member holds the driver capability.  The
converse fails: the timestamp can be null although no qualifying moderator
is present (e.g. a room that never contained a moderator, or whose
members are all idle — see the counterexample). -/
theorem no_mods_online_sound (ops : List MemOp)
    (h : (runOps initRoomMembers ops).no_mods_online.isSome = true) :
    noQualMod (runOps initRoomMembers ops).users = true :=
  runOps_inv ops initRoomMembers
    (fun h0 => absurd h0 (by decide)) h

/-- C2 witness: a regular member joins, a driver joins, the driver leaves —
the timestamp is then set, and indeed no qualifying moderator remains. -/
theorem no_mods_online_sound_witness :
    noQualMod (runOps initRoomMembers
      [MemOp.add (RUser.mk 1 false) none 1,
       MemOp.add (RUser.mk 2 false) (some ['%']) 2,
       MemOp.remove (RUser.mk 2 false) 3]).users = true :=
  no_mods_online_sound
    [MemOp.add (RUser.mk 1 false) none 1,
     MemOp.add (RUser.mk 2 false) (some ['%']) 2,
     MemOp.remove (RUser.mk 2 false) 3] (by rfl)

end Cerbottana
